import Mathlib

/-
  Verification of the parserzxc repository (knowledge-base article parser).

  Shallow embedding of the core modules:
    - src/core/parser_engine.py      (Article dataclass, ParserEngine.extract_search_results,
                                      ParserEngine.clean_content)
    - src/core/advanced_parser.py    (AdvancedKnowledgeParser.parse_articles_batch,
                                      expanded_search, related_topics_search,
                                      generate_related_keywords)
    - "src/4. core/article_manager.py" (ArticleManager.generate_article_id, save_article,
                                      update_articles_index, search_articles)

  Python strings are modelled as lists of characters (`Str`).  External
  library primitives that the code calls (Selenium page access, the file
  system, hashlib.md5, wall-clock time) are modelled as explicit
  parameters: page contents, fault-injection flags, an abstract hash
  function and a timestamp argument.  Python exceptions are modelled with
  `Except`; a `try/except` block is the corresponding `match` on the
  `Except` value.
-/

set_option maxRecDepth 4000

/-- Python strings are modelled as lists of characters. -/
abbrev Str := List Char

/-- Coerce a Lean string literal into the model's string type. -/
def str (s : String) : Str := s.data

/-- Whitespace characters recognised by Python's `str.split()`, `str.strip()`
and the regex class `\s` (restricted to the ASCII repertoire used by the code). -/
def isPySpace (c : Char) : Bool :=
  c == ' ' || c == '\t' || c == '\n' || c == '\r' || c == '\x0b' || c == '\x0c'

/-- Horizontal whitespace, the regex class `[ \t]` of `clean_content`. -/
def isHT (c : Char) : Bool := c == ' ' || c == '\t'

/-- Cyrillic letters (the `а-яА-ЯёЁ` ranges named in `clean_content`). -/
def isCyrillic (c : Char) : Bool :=
  (decide ('а' ≤ c) && decide (c ≤ 'я')) || (decide ('А' ≤ c) && decide (c ≤ 'Я')) ||
    c == 'ё' || c == 'Ё'

/-- Python's `str.isalnum`, modelled over the ASCII and Cyrillic repertoire
that the program's data actually uses. -/
def pyIsAlnum (c : Char) : Bool := c.isAlphanum || isCyrillic c

/-- The regex class `\w` (word character), modelled over the ASCII and
Cyrillic repertoire that the program's data actually uses. -/
def isWordChar (c : Char) : Bool := c.isAlphanum || c == '_' || isCyrillic c

/-- Python's `str.lower`, modelled over the ASCII and Cyrillic repertoire. -/
def pyToLower (c : Char) : Char :=
  if decide ('А' ≤ c) && decide (c ≤ 'Я') then Char.ofNat (c.toNat + 32)
  else if c == 'Ё' then 'ё'
  else c.toLower

/-- Lower-case an entire string (Python `s.lower()`). -/
def pyLower (s : Str) : Str := s.map pyToLower

/-- Python's substring test `needle in hay`. -/
def strIn (needle : Str) : Str → Bool
  | [] => needle.isEmpty
  | c :: rest => needle.isPrefixOf (c :: rest) || strIn needle rest

/-- Worker for `pySplit`: `acc` is the current token, reversed. -/
def splitGo (acc : Str) : Str → List Str
  | [] => if acc.isEmpty then [] else [acc.reverse]
  | c :: rest =>
      if isPySpace c then
        if acc.isEmpty then splitGo [] rest else acc.reverse :: splitGo [] rest
      else splitGo (c :: acc) rest

/-- Python's `str.split()` with no argument: split on whitespace runs,
dropping empty tokens. -/
def pySplit (s : Str) : List Str := splitGo [] s

/-- Python's `str.strip()`: drop whitespace from both ends. -/
def pyStrip (s : Str) : Str :=
  ((s.dropWhile isPySpace).reverse.dropWhile isPySpace).reverse

/-- Worker for `pyReplace`; the fuel argument only ensures structural
termination and is always called with enough fuel. -/
def pyReplaceAux (pat repl : Str) : Nat → Str → Str
  | _, [] => []
  | 0, s => s
  | n + 1, c :: rest =>
      if pat.isPrefixOf (c :: rest) then repl ++ pyReplaceAux pat repl n ((c :: rest).drop pat.length)
      else c :: pyReplaceAux pat repl n rest

/-- Python's `str.replace(pat, repl)` (all occurrences, left to right).
The callers in the source only pass non-empty patterns (tokens produced by
`split()`), so the empty-pattern case just returns the string. -/
def pyReplace (pat repl s : Str) : Str :=
  if pat.isEmpty then s else pyReplaceAux pat repl s.length s

/- ===================== parser_engine.Article ===================== -/

/-- The `Article` dataclass of `src/core/parser_engine.py` after
`__post_init__` has run. -/
structure Article where
  title : Str
  url : Str
  content : Str
  category : Str
  tags : List Str
  metadata : List (Str × Str)
  word_count : Nat
  timestamp : Str
deriving DecidableEq, Repr

/-- Constructing an `Article(title, url, content, category, tags, metadata,
word_count, timestamp)` and running `__post_init__`: `None` tags/metadata
become empty, an empty timestamp is replaced by the current time `now`, and
`word_count` is always overwritten with `len(content.split())`. -/
def postInitArticle (now : Str) (title url content category : Str)
    (tags : Option (List Str)) (metadata : Option (List (Str × Str)))
    (word_count : Nat) (timestamp : Str) : Article :=
  { title := title
    url := url
    content := content
    category := category
    tags := tags.getD []
    metadata := metadata.getD []
    timestamp := if timestamp.isEmpty then now else timestamp
    word_count := (pySplit content).length }

/-- The fallback sentinel that `extract_content` substitutes when no usable
body text is found. -/
def contentSentinel : Str := str "Контент не найден"

/- ===================== article_manager.ArticleManager ===================== -/

/-- `ArticleManager.generate_article_id`.  The call
`hashlib.md5(article.content.encode()).hexdigest()` is an external library
primitive and is modelled as the abstract hash function `h`. -/
def generate_article_id (h : Str → Str) (a : Article) : Str :=
  ((a.title.filter pyIsAlnum).take 20) ++ str "_" ++ ((h a.content).take 10)

/-- One record of the `articles_index.json` file (the `index_entry` dict of
`update_articles_index`). -/
structure IndexRecord where
  id : Str
  title : Str
  url : Str
  category : Str
  word_count : Nat
  timestamp : Str
deriving DecidableEq, Repr

/-- The full per-article record written to `{id}.json` (the `article_data`
dict of `save_article`). -/
structure ArticleData where
  id : Str
  title : Str
  url : Str
  content : Str
  category : Str
  tags : List Str
  metadata : List (Str × Str)
  word_count : Nat
  timestamp : Str
  parsed_at : Str
deriving DecidableEq, Repr

/-- Building `article_data` inside `save_article` (`parsed_at` is the
current time, passed explicitly). -/
def articleDataOf (id now : Str) (a : Article) : ArticleData :=
  ⟨id, a.title, a.url, a.content, a.category, a.tags, a.metadata,
    a.word_count, a.timestamp, now⟩

/-- Projecting `article_data` to the `index_entry` dict of
`update_articles_index`. -/
def indexEntryOfData (d : ArticleData) : IndexRecord :=
  ⟨d.id, d.title, d.url, d.category, d.word_count, d.timestamp⟩

/-- The index update of `update_articles_index`: drop every existing record
with the same id, then append the new entry. -/
def upsertIndex (e : IndexRecord) (index : List IndexRecord) : List IndexRecord :=
  (index.filter fun item => item.id ≠ e.id) ++ [e]

/-- Applying a whole sequence of index updates, starting from the empty
index (the state of `articles_index.json` after a sequence of saves). -/
def applySaves (saves : List IndexRecord) : List IndexRecord :=
  saves.foldl (fun index e => upsertIndex e index) []

/-- The on-disk state owned by `ArticleManager`: the per-article record
files (path, content) and the `articles_index.json` contents. -/
structure Store where
  files : List (Str × ArticleData)
  index : List IndexRecord
deriving DecidableEq, Repr

/-- Fault injection for the file-system calls of `save_article` and
`update_articles_index`: each flag makes the corresponding `open`/`json`
call raise. -/
structure Faults where
  recordWrite : Bool
  indexRead : Bool
  indexWrite : Bool
deriving DecidableEq, Repr

/-- Writing a file: replaces any previous file at the same path. -/
def writeFileAt (path : Str) (d : ArticleData) (files : List (Str × ArticleData)) :
    List (Str × ArticleData) :=
  (files.filter fun kv => kv.1 ≠ path) ++ [(path, d)]

/-- `os.path.join(dir, name)`. -/
def joinPath (dir name : Str) : Str := dir ++ str "/" ++ name

/-- `ArticleManager.update_articles_index`: read the index, remove
duplicates of the entry's id, append, write back.  The whole body is inside
`try/except`, so a failing read or write leaves the store unchanged and no
exception escapes. -/
def update_articles_index (f : Faults) (d : ArticleData) (st : Store) : Store :=
  if f.indexRead then st
  else
    let newIndex := upsertIndex (indexEntryOfData d) st.index
    if f.indexWrite then st else { st with index := newIndex }

/-- `ArticleManager.save_article`: compute the id, write the per-article
record file, update the index, return the file path.  The body is inside
`try/except`, so a failing record write yields the return value `""`; a
failure inside `update_articles_index` is swallowed there and the path is
still returned. -/
def save_article (h : Str → Str) (f : Faults) (dataDir now : Str) (a : Article)
    (st : Store) : Str × Store :=
  let id := generate_article_id h a
  let d := articleDataOf id now a
  let filepath := joinPath dataDir (id ++ str ".json")
  if f.recordWrite then (str "", st)
  else
    let st1 := { st with files := writeFileAt filepath d st.files }
    let st2 := update_articles_index f d st1
    (filepath, st2)

/-- One stored article as `search_articles` reads it back from its
`{id}.json` file. -/
structure StoredArticle where
  id : Str
  title : Str
  url : Str
  content : Str
  tags : List Str
  word_count : Nat
  timestamp : Str
deriving DecidableEq, Repr

/-- One search result dict of `ArticleManager.search_articles`. -/
structure SearchHit where
  id : Str
  title : Str
  url : Str
  excerpt : Str
  word_count : Nat
  timestamp : Str
deriving DecidableEq, Repr

/-- The result dict built for a matching article: the excerpt is
`content[:200] + '...'`. -/
def hitOf (a : StoredArticle) : SearchHit :=
  ⟨a.id, a.title, a.url, a.content.take 200 ++ str "...", a.word_count, a.timestamp⟩

/-- The match test of `search_articles`: the lowered query is a substring of
the lowered title, the lowered content, or some lowered tag. -/
def articleMatches (ql : Str) (a : StoredArticle) : Bool :=
  strIn ql (pyLower a.title) || strIn ql (pyLower a.content) ||
    a.tags.any fun t => strIn ql (pyLower t)

/-- `ArticleManager.search_articles` over the persisted store (the store is
the list of per-article json files, in directory-iteration order). -/
def search_articles (q : Str) (store : List StoredArticle) : List SearchHit :=
  let ql := pyLower q
  store.foldl (fun results a => if articleMatches ql a then results ++ [hitOf a] else results) []

/- ===================== parser_engine discovery ===================== -/

/-- One search result of the discovery engine (the `{title, url}` dicts;
the Selenium `element` handle is not data and is omitted). -/
structure SearchResult where
  title : Str
  url : Str
deriving DecidableEq, Repr

/-- A rendered page element as `extract_search_results` sees it:
`element.text` and `element.get_attribute('href')` (which may be `None`). -/
structure PageElement where
  text : Str
  href : Option Str
deriving DecidableEq, Repr

/-- The per-element step of `extract_search_results`: strip the text, keep
the element only if the title is non-empty, the href is present and
non-empty, and the href contains `/content/`. -/
def elemCandidate (e : PageElement) : Option SearchResult :=
  let title := pyStrip e.text
  match e.href with
  | none => none
  | some url =>
      if !title.isEmpty && !url.isEmpty && strIn (str "/content/") url then
        some ⟨title, url⟩
      else none

/-- Worker for `extract_search_results`: accumulate candidates selector by
selector, stopping after the first selector whose candidates make the
accumulated list non-empty (`if articles: break`). -/
def extractGo (acc : List SearchResult) : List (List PageElement) → List SearchResult
  | [] => acc
  | els :: rest =>
      let acc1 := acc ++ els.filterMap elemCandidate
      if acc1.isEmpty then extractGo acc1 rest else acc1

/-- `ParserEngine.extract_search_results`, as a function of the element
lists that the cascading result selectors return. -/
def extract_search_results (selectorResults : List (List PageElement)) : List SearchResult :=
  extractGo [] selectorResults

/- ===================== advanced_parser discovery ===================== -/

/-- Worker for the de-duplication loops of `expanded_search` and
`related_topics_search`: `seen` is the set of urls already emitted. -/
def dedupGo (seen : List Str) : List SearchResult → List SearchResult
  | [] => []
  | r :: rest =>
      if r.url ∈ seen then dedupGo seen rest
      else r :: dedupGo (r.url :: seen) rest

/-- The `unique_results` / `seen_urls` de-duplication of
`expanded_search` and `related_topics_search`. -/
def dedupByUrl (rs : List SearchResult) : List SearchResult := dedupGo [] rs

/-- The static synonym table of `expanded_search`. -/
def synonymsTable : List (Str × List Str) :=
  [ (str "электроэнергия", [str "электричество", str "электроснабжение", str "энергия"])
  , (str "долг", [str "задолженность", str "задолж", str "неоплата"])
  , (str "тариф", [str "расценка", str "ставка", str "цена"])
  , (str "счетчик", [str "прибор учета", str "ПУ", str "измеритель"])
  , (str "льгота", [str "преференция", str "скидка", str "субсидия"]) ]

/-- The static related-topic table of `generate_related_keywords`. -/
def topicMap : List (Str × List Str) :=
  [ (str "электроэнергия", [str "оплата электроэнергии", str "тарифы на электричество", str "потребление энергии"])
  , (str "долг", [str "погашение задолженности", str "рассрочка платежа", str "отключение за долги"])
  , (str "тариф", [str "изменение тарифа", str "многотарифный учет", str "тарифное расписание"])
  , (str "счетчик", [str "замена счетчика", str "показания счетчика", str "поверка прибора учета"])
  , (str "льгота", [str "оформление льготы", str "льготы ветеранам", str "социальные льготы"]) ]

/-- Dictionary membership/lookup `word.lower() in table`. -/
def lookupTable (t : List (Str × List Str)) (w : Str) : Option (List Str) :=
  (t.find? fun kv => kv.1 == w).map fun kv => kv.2

/-- The query variants built by `expanded_search`: the query itself, then
for each word with synonyms every substituted variant. -/
def expandedQueries (query : Str) : List Str :=
  let extra := (pySplit query).foldl
    (fun acc word =>
      match lookupTable synonymsTable (pyLower word) with
      | some syns => acc ++ syns.map fun syn => pyReplace word syn query
      | none => acc) []
  query :: extra

/-- The concatenated raw results of `expanded_search` before
de-duplication (`all_results`); only the first 3 query variants are run.
The engine's site search is the oracle `searchFn`. -/
def expandedSearchRaw (searchFn : Str → List SearchResult) (query : Str) : List SearchResult :=
  ((expandedQueries query).take 3).foldl (fun acc q => acc ++ searchFn q) []

/-- `AdvancedKnowledgeParser.expanded_search`. -/
def expanded_search (searchFn : Str → List SearchResult) (query : Str) : List SearchResult :=
  dedupByUrl (expandedSearchRaw searchFn query)

/-- `AdvancedKnowledgeParser.generate_related_keywords`. -/
def generate_related_keywords (query : Str) : List Str :=
  let related := (pySplit query).foldl
    (fun acc word =>
      match lookupTable topicMap (pyLower word) with
      | some topics => acc ++ topics
      | none => acc) []
  if related.isEmpty then [query] else related

/-- The concatenated raw results of `related_topics_search` before
de-duplication; only the first 2 related keywords are run. -/
def relatedSearchRaw (searchFn : Str → List SearchResult) (query : Str) : List SearchResult :=
  ((generate_related_keywords query).take 2).foldl (fun acc k => acc ++ searchFn k) []

/-- `AdvancedKnowledgeParser.related_topics_search`. -/
def related_topics_search (searchFn : Str → List SearchResult) (query : Str) : List SearchResult :=
  dedupByUrl (relatedSearchRaw searchFn query)

/-- The per-link step of `ParserEngine.alternative_search` (the fallback
scan): keep a link whose href is present, non-empty and matches the
content-path convention, and whose stripped text is relevant to the query
(contains the whole lowered query, or any word of it). -/
def linkCandidate (query : Str) (e : PageElement) : Option SearchResult :=
  let text := pyStrip e.text
  match e.href with
  | none => none
  | some href =>
      if !href.isEmpty && strIn (str "/content/") href then
        if strIn (pyLower query) (pyLower text)
            || (pySplit (pyLower query)).any (fun word => strIn word (pyLower text)) then
          some ⟨text, href⟩
        else none
      else none

/-- `ParserEngine.alternative_search`, as a function of the page's link
elements (`driver.find_elements(By.TAG_NAME, "a")`): every relevant link
is appended in page order, with no de-duplication. -/
def alternative_search (query : Str) (allLinks : List PageElement) : List SearchResult :=
  allLinks.filterMap (linkCandidate query)

/- ===================== advanced_parser batch orchestrator ===================== -/

/-- A Python exception value. -/
inductive PyExc where
  | exc (msg : Str)
deriving DecidableEq, Repr

/-- The error that terminates `parse_articles_batch` abnormally:
`log_results` (called from the `finally` block) evaluates
`success / (success + failed)` and raises `ZeroDivisionError` when no item
was counted. -/
inductive BatchError where
  | zeroDivision
deriving DecidableEq, Repr

/-- One entry of `results['articles']`. -/
structure SavedInfo where
  title : Str
  url : Str
  word_count : Nat
  file_path : Str
deriving DecidableEq, Repr

/-- The `results` dict accumulated by `parse_articles_batch`
(`total_time`, wall-clock time, is not modelled). -/
structure BatchState where
  success : Nat
  failed : Nat
  skipped : Nat
  articles : List SavedInfo
deriving DecidableEq, Repr

/-- The initial `results` dict. -/
def initState : BatchState := ⟨0, 0, 0, []⟩

/-- The collaborators that `parse_articles_batch` drives, as oracles:
`login` is the outcome of `smart_login()`; the other three may raise
(`Except.error`), return their Python result otherwise.
`parse_article_page` returns `Optional[Article]`; `save_article` returns a
file path, `""` on failure. -/
structure Oracles where
  login : Bool
  search : Str → Except PyExc (List SearchResult)
  parsePage : Str → Except PyExc (Option Article)
  save : Article → Except PyExc Str

/-- Outcome of one loop iteration's body when no exception escapes it. -/
inductive ItemRes where
  | failedItem
  | savedItem (info : SavedInfo)
deriving DecidableEq, Repr

/-- The body of one iteration of the batch loop (lines between `try:` and
`except` in `parse_articles_batch`): search, take the first result, parse
the page, save, build the success record.  An `Except.error` is an
exception escaping the body. -/
def processTitle (o : Oracles) (t : Str) : Except PyExc ItemRes := do
  let srs ← o.search t
  match srs with
  | [] => pure .failedItem
  | r :: _ =>
    let a? ← o.parsePage r.url
    match a? with
    | none => pure .failedItem
    | some a =>
      let path ← o.save a
      if path.isEmpty then pure .failedItem
      else pure (.savedItem ⟨a.title, a.url, a.word_count, path⟩)

/-- One loop iteration including the per-item `except Exception` handler:
an escaped exception, an empty search, a failed parse and a failed save all
just increment `failed`; a successful save increments `success` and records
the article. -/
def stepTitle (o : Oracles) (st : BatchState) (t : Str) : BatchState :=
  match processTitle o t with
  | .error _ => { st with failed := st.failed + 1 }
  | .ok .failedItem => { st with failed := st.failed + 1 }
  | .ok (.savedItem i) => { st with success := st.success + 1, articles := st.articles ++ [i] }

/-- The batch loop over the titles to parse. -/
def batchLoop (o : Oracles) (titles : List Str) (st : BatchState) : BatchState :=
  titles.foldl (stepTitle o) st

/-- The truncation `articles_list[:max_articles]` guarded by
`if max_articles:` — Python's truthiness makes both `None` and `0` mean
"no limit". -/
def articlesToParse (titles : List Str) (mx : Option Nat) : List Str :=
  match mx with
  | none => titles
  | some m => if m = 0 then titles else titles.take m

/-- The observable effect of `log_results`, which runs in the `finally`
block: it evaluates `success / (success + failed) * 100`, so it raises
`ZeroDivisionError` whenever no item was counted; otherwise the `results`
dict is returned unchanged. -/
def logResultsCheck (st : BatchState) : Except BatchError BatchState :=
  if st.success + st.failed = 0 then .error .zeroDivision else .ok st

/-- `AdvancedKnowledgeParser.parse_articles_batch`: authenticate, truncate
the title list, run the loop, and pass the `results` dict through the
`finally`-block logging (which can raise and replace the return value). -/
def parse_articles_batch (o : Oracles) (titles : List Str) (mx : Option Nat) :
    Except BatchError BatchState :=
  if !o.login then logResultsCheck initState
  else logResultsCheck (batchLoop o (articlesToParse titles mx) initState)

/- ===================== parser_engine.clean_content ===================== -/

/-- Split a list at its last newline: `some (p, s)` with the input equal to
`p ++ s`, `p` ending in its last `'\n'`; `none` when there is no newline. -/
def lastNLsplit : Str → Option (Str × Str)
  | [] => none
  | c :: rest =>
      match lastNLsplit rest with
      | some (p, s) => some (c :: p, s)
      | none => if c == '\n' then some ([c], rest) else none

/-- The substitution `re.sub(r'\n\s*\n', '\n\n', text)`: a leftmost-greedy
match starts at a newline whose following whitespace run contains another
newline, extends through the last newline of that run, and is replaced by
two newlines.  The fuel argument only ensures structural termination and is
always called with enough fuel (each step consumes at least one character).  -/
def step1Aux : Nat → Str → Str
  | _, [] => []
  | 0, s => s
  | n + 1, c :: rest =>
      if c == '\n' then
        let ws := rest.takeWhile isPySpace
        match lastNLsplit ws with
        | some (_, suffix) => '\n' :: '\n' :: step1Aux n (suffix ++ rest.drop ws.length)
        | none => c :: step1Aux n rest
      else c :: step1Aux n rest

/-- First substitution of `clean_content`: collapse `\n\s*\n` to `\n\n`. -/
def step1 (s : Str) : Str := step1Aux s.length s

/-- Second substitution of `clean_content`:
`re.sub(r'[ \t]+', ' ', text)`: each maximal run of spaces/tabs becomes a
single space.  The fuel argument only ensures structural termination and is
always called with enough fuel. -/
def step2Aux : Nat → Str → Str
  | _, [] => []
  | 0, s => s
  | n + 1, c :: rest =>
      if isHT c then ' ' :: step2Aux n (rest.dropWhile isHT)
      else c :: step2Aux n rest

/-- Second substitution of `clean_content`, at full fuel. -/
def step2 (s : Str) : Str := step2Aux s.length s

/-- Split after the first occurrence of `pat`: `some` of the suffix
following that occurrence, `none` when `pat` does not occur. -/
def splitAfterFirst (pat : Str) : Str → Option Str
  | [] => if pat.isEmpty then some [] else none
  | c :: rest =>
      if pat.isPrefixOf (c :: rest) then some ((c :: rest).drop pat.length)
      else splitAfterFirst pat rest

/-- The word-boundary `\b` after `<script` / `<style`: the next character
must not be a word character. -/
def boundaryOK : Str → Bool
  | [] => true
  | d :: _ => !isWordChar d

/-- The substitutions removing `<script...>...</script>` and
`<style...>...</style>` blocks: a match runs from an opening `tag` (with a
word boundary after it) to the first following `close` literal and is
deleted.  With no closing literal the regex does not match and scanning
moves on.  The fuel argument only ensures structural termination and is
always called with enough fuel. -/
def stripBlockAux (tag close : Str) : Nat → Str → Str
  | _, [] => []
  | 0, s => s
  | n + 1, c :: rest =>
      if tag.isPrefixOf (c :: rest) && boundaryOK ((c :: rest).drop tag.length) then
        match splitAfterFirst close ((c :: rest).drop tag.length) with
        | some after => stripBlockAux tag close n after
        | none => c :: stripBlockAux tag close n rest
      else c :: stripBlockAux tag close n rest

/-- `re.sub` of the script-block pattern. -/
def stripScript (s : Str) : Str := stripBlockAux (str "<script") (str "</script>") s.length s

/-- `re.sub` of the style-block pattern. -/
def stripStyle (s : Str) : Str := stripBlockAux (str "<style") (str "</style>") s.length s

/-- Split the text after the first `'>'`, also returning the part before
it; `none` when there is no `'>'`. -/
def findGt : Str → Option (Str × Str)
  | [] => none
  | c :: rest =>
      if c == '>' then some ([], rest)
      else
        match findGt rest with
        | some (b, a) => some (c :: b, a)
        | none => none

/-- The match of `re.sub(r'<[^>]+>', '', text)` at a `'<'`: at least one
character, then the next `'>'`; returns the suffix after the tag. -/
def closeTagSplit (rest : Str) : Option Str :=
  match findGt rest with
  | some (before, after) => if before.isEmpty then none else some after
  | none => none

/-- Fourth substitution of `clean_content`: delete every `<[^>]+>` tag.
The fuel argument only ensures structural termination and is always called
with enough fuel. -/
def step4Aux : Nat → Str → Str
  | _, [] => []
  | 0, s => s
  | n + 1, c :: rest =>
      if c == '<' then
        match closeTagSplit rest with
        | some after => step4Aux n after
        | none => c :: step4Aux n rest
      else c :: step4Aux n rest

/-- Fourth substitution of `clean_content`, at full fuel. -/
def step4 (s : Str) : Str := step4Aux s.length s

/-- The character allow-list of
`re.sub(r'[^\w\sа-яА-ЯёЁ.,!?;:()\-–—]', '', text)`: word characters
(which already include the listed Cyrillic ranges), whitespace, and the
listed punctuation. -/
def allowedChar (c : Char) : Bool :=
  isWordChar c || isPySpace c ||
    c == '.' || c == ',' || c == '!' || c == '?' || c == ';' || c == ':' ||
    c == '(' || c == ')' || c == '-' || c == '–' || c == '—'

/-- Fifth substitution of `clean_content`: delete every character outside
the allow-list. -/
def step5 (s : Str) : Str := s.filter allowedChar

/-- `ParserEngine.clean_content`: the empty-text guard, the five regex
substitutions in source order, then `strip()`. -/
def clean_content (text : Str) : Str :=
  if text.isEmpty then []
  else pyStrip (step5 (step4 (stripStyle (stripScript (step2 (step1 text))))))

/- ===================== spec-side auxiliary definitions ===================== -/

/-- Only space and newline occur as whitespace (no tabs, carriage returns
or vertical whitespace).  Part of the whitespace-normal form used by the
amended idempotence statement for `clean_content`. -/
def onlySpaceNL (s : Str) : Bool :=
  s.all fun c => !(isPySpace c) || (c == ' ' || c == '\n')

/-- Any two adjacent whitespace characters are exactly the blank-line pair
`'\n','\n'`.  Part of the whitespace-normal form. -/
def wsPairsOK : Str → Bool
  | a :: b :: rest =>
      (if isPySpace a && isPySpace b then a == '\n' && b == '\n' else true) && wsPairsOK (b :: rest)
  | _ => true

/-- No three consecutive newlines.  Part of the whitespace-normal form. -/
def wsOK3 : Str → Bool
  | a :: b :: c :: rest =>
      (!(a == '\n' && b == '\n' && c == '\n')) && wsOK3 (b :: c :: rest)
  | _ => true

/-- The first character, if any, is not whitespace. -/
def headOK : Str → Bool
  | [] => true
  | c :: _ => !(isPySpace c)

/-- Whitespace-normal form for cleaned text: only characters of the
`clean_content` allow-list, whitespace restricted to space and newline,
no two adjacent whitespace characters other than one blank-line pair
`"\n\n"`, no triple newline, and no leading or trailing whitespace.  This
is the domain on which the amended idempotence claim for `clean_content`
is stated. -/
def wsNormalForm (s : Str) : Bool :=
  s.all allowedChar && onlySpaceNL s && wsPairsOK s && wsOK3 s && headOK s && headOK s.reverse

/-- A concrete oracle set whose search raises, for exercising the per-item
exception handler of `parse_articles_batch`. -/
def oracleRaise : Oracles :=
  ⟨true, fun _ => .error (.exc (str "boom")), fun _ => .ok none, fun _ => .ok []⟩

/-- A concrete oracle set that authenticates and finds nothing. -/
def oracleNoResults : Oracles :=
  ⟨true, fun _ => .ok [], fun _ => .ok none, fun _ => .ok []⟩

/-- A stored article whose tags contain "льгота" while title and body do
not (the tag-only search scenario). -/
def tagOnlyArticle : StoredArticle :=
  ⟨str "id1", str "Правила", str "/content/1", str "Текст без запроса",
    [str "льгота"], 3, str "2024"⟩

/- =================================================================
   Theorems
   ================================================================= -/

/- ----- helper lemmas: index upsert ----- -/

theorem upsertIndex_filter_id (e : IndexRecord) (idx : List IndexRecord) :
    (upsertIndex e idx).filter (fun r => r.id = e.id) = [e] := by
  unfold upsertIndex
  rw [List.filter_append]
  have h1 : (idx.filter fun item => item.id ≠ e.id).filter (fun r => r.id = e.id) = [] := by
    rw [List.filter_filter]
    apply List.filter_eq_nil_iff.mpr
    intro a _
    simp only [Bool.and_eq_true, decide_eq_true_eq]
    rintro ⟨h, h'⟩
    exact h' h
  have h2 : List.filter (fun r => decide (r.id = e.id)) [e] = [e] := by
    simp [List.filter]
  simp only [h1, List.nil_append]
  exact h2

theorem upsertIndex_nodup (e : IndexRecord) (idx : List IndexRecord)
    (h : (idx.map IndexRecord.id).Nodup) :
    ((upsertIndex e idx).map IndexRecord.id).Nodup := by
  unfold upsertIndex
  rw [List.map_append]
  have hsub : List.Sublist ((idx.filter fun item => item.id ≠ e.id).map IndexRecord.id)
      (idx.map IndexRecord.id) := List.Sublist.map IndexRecord.id (List.filter_sublist idx)
  have hnd : ((idx.filter fun item => item.id ≠ e.id).map IndexRecord.id).Nodup :=
    h.sublist hsub
  refine List.Nodup.append hnd (List.nodup_singleton _) ?_
  intro x hx hy
  rcases List.mem_map.mp hx with ⟨a, ha, hid⟩
  have hane : a.id ≠ e.id := by
    have := List.of_mem_filter ha
    simpa using this
  have hxe : x = e.id := by simpa using hy
  exact hane (hid.trans hxe)

theorem applySaves_loop_nodup (saves : List IndexRecord) :
    ∀ idx : List IndexRecord, (idx.map IndexRecord.id).Nodup →
      ((saves.foldl (fun index e => upsertIndex e index) idx).map IndexRecord.id).Nodup := by
  induction saves with
  | nil => intro idx h; simpa using h
  | cons e rest ih =>
      intro idx h
      simpa [List.foldl_cons] using ih (upsertIndex e idx) (upsertIndex_nodup e idx h)

/- ----- C1 ----- -/

/-- C1: the index holds exactly one `IndexRecord` per distinct id.  After
any sequence of save operations starting from an empty index, the record
ids are pairwise distinct; an upsert removes any existing entry with the
incoming id and appends the new one, so exactly one record with that id
remains and it is the new one; and re-saving an entry whose id equals that
of an already-indexed entry (in particular, saving the same `(title, body)`
twice, which yields the same derived id) produces the same index as saving
only the newer one — last-write-wins, never a duplicate. -/
theorem C1_index_unique (saves : List IndexRecord) :
    ((applySaves saves).map IndexRecord.id).Nodup
    ∧ (∀ (e : IndexRecord) (idx : List IndexRecord),
        (upsertIndex e idx).filter (fun r => r.id = e.id) = [e])
    ∧ (∀ (e1 e2 : IndexRecord) (idx : List IndexRecord), e1.id = e2.id →
        upsertIndex e2 (upsertIndex e1 idx) = upsertIndex e2 idx) := by
  refine ⟨applySaves_loop_nodup saves [] (by simp), upsertIndex_filter_id, ?_⟩
  intro e1 e2 idx h
  unfold upsertIndex
  rw [List.filter_append]
  have h1 : List.filter (fun item => decide (item.id ≠ e2.id)) [e1] = [] := by
    simp [List.filter, h]
  have h2 : (idx.filter fun item => item.id ≠ e1.id).filter (fun item => item.id ≠ e2.id)
      = idx.filter fun item => item.id ≠ e2.id := by
    rw [List.filter_filter]
    apply List.filter_congr
    intro a _
    rw [h]
    exact Bool.and_self _
  rw [h1, h2, List.append_nil]

/-- Witness for C1 at concrete records sharing one id. -/
theorem C1_index_unique_witness :
    upsertIndex ⟨str "id0", str "T2", str "u2", str "c", 2, str "t2"⟩
        (upsertIndex ⟨str "id0", str "T1", str "u1", str "c", 1, str "t1"⟩ [])
      = upsertIndex ⟨str "id0", str "T2", str "u2", str "c", 2, str "t2"⟩ []
    ∧ ((applySaves [⟨str "id0", str "T1", str "u1", str "c", 1, str "t1"⟩,
          ⟨str "id0", str "T2", str "u2", str "c", 2, str "t2"⟩]).map IndexRecord.id).Nodup :=
  ⟨(C1_index_unique []).2.2 _ _ [] rfl,
   (C1_index_unique [⟨str "id0", str "T1", str "u1", str "c", 1, str "t1"⟩,
      ⟨str "id0", str "T2", str "u2", str "c", 2, str "t2"⟩]).1⟩

/- ----- C2 ----- -/

/-- C2: at construction, `word_count` always equals the whitespace-token
count of the body (`len(content.split())`), whatever `word_count` value was
passed to the constructor: in particular it is `0` for an empty body, and
for the fallback sentinel body it is the sentinel's token count (3). -/
theorem C2_word_count (now title url content category : Str)
    (tags : Option (List Str)) (metadata : Option (List (Str × Str)))
    (wc wc' : Nat) (timestamp : Str) :
    (postInitArticle now title url content category tags metadata wc timestamp).word_count
        = (pySplit content).length
    ∧ (postInitArticle now title url content category tags metadata wc timestamp).word_count
        = (postInitArticle now title url content category tags metadata wc' timestamp).word_count
    ∧ (postInitArticle now title url [] category tags metadata wc timestamp).word_count = 0
    ∧ (postInitArticle now title url contentSentinel category tags metadata wc
        timestamp).word_count = 3 :=
  ⟨rfl, rfl, rfl, show (pySplit contentSentinel).length = 3 by decide⟩

/- ----- C3 ----- -/

/-- C3: for every hash function `h` standing for the md5 hexdigest, the
derived identifier is the first 20 alphanumeric characters of the title,
an underscore, and the first 10 characters of the body hash; it is stable
when `(title, body)` is unchanged, and for a fixed title it changes
exactly when the truncated body hash changes (so a body change alters the
id whenever it alters the first 10 hash characters). -/
theorem C3_article_id (h : Str → Str) (a : Article) :
    generate_article_id h a
        = ((a.title.filter pyIsAlnum).take 20) ++ str "_" ++ ((h a.content).take 10)
    ∧ (∀ b : Article, a.title = b.title → a.content = b.content →
        generate_article_id h a = generate_article_id h b)
    ∧ (∀ b : Article, a.title = b.title →
        (h a.content).take 10 ≠ (h b.content).take 10 →
        generate_article_id h a ≠ generate_article_id h b) := by
  refine ⟨rfl, ?_, ?_⟩
  · intro b ht hc
    unfold generate_article_id
    rw [ht, hc]
  · intro b ht hh heq
    unfold generate_article_id at heq
    rw [ht] at heq
    exact hh (List.append_cancel_left heq)

/-- Witness for C3: same title, different bodies whose (identity-) hash
prefixes differ, hence different ids; and stability on identical input. -/
theorem C3_article_id_witness :
    generate_article_id (fun s => s) ⟨str "T", str "u", str "x", [], [], [], 0, str "ts"⟩
      ≠ generate_article_id (fun s => s) ⟨str "T", str "u", str "y", [], [], [], 0, str "ts"⟩
    ∧ generate_article_id (fun s => s) ⟨str "T", str "u", str "x", [], [], [], 0, str "ts"⟩
      = generate_article_id (fun s => s) ⟨str "T", str "u", str "x", [], [], [], 1, str "zz"⟩ :=
  ⟨(C3_article_id (fun s => s) ⟨str "T", str "u", str "x", [], [], [], 0, str "ts"⟩).2.2
      ⟨str "T", str "u", str "y", [], [], [], 0, str "ts"⟩ rfl (by decide),
   (C3_article_id (fun s => s) ⟨str "T", str "u", str "x", [], [], [], 0, str "ts"⟩).2.1
      ⟨str "T", str "u", str "x", [], [], [], 1, str "zz"⟩ rfl rfl⟩

/- ----- helper lemmas: search fold ----- -/

theorem foldl_if_append {α β : Type} (p : α → Bool) (f : α → β) :
    ∀ (l : List α) (init : List β),
      l.foldl (fun acc a => if p a then acc ++ [f a] else acc) init
        = init ++ (l.filter p).map f := by
  intro l
  induction l with
  | nil => intro init; simp
  | cons a rest ih =>
      intro init
      by_cases h : p a
      · simp [List.foldl_cons, h, ih]
      · simp [List.foldl_cons, h, ih]

/- ----- C4 ----- -/

/-- C4: `search_articles` returns exactly the hits of the persisted
entries whose lowered title, lowered body, or some lowered tag contains
the lowered query as a substring, in store order; every hit's excerpt is
the first 200 characters of the body followed by the ellipsis "..."; and
an article matched only through a tag (the "льгота" scenario) is still
returned. -/
theorem C4_search (q : Str) (store : List StoredArticle) :
    search_articles q store = (store.filter (articleMatches (pyLower q))).map hitOf
    ∧ (∀ a : StoredArticle, (hitOf a).excerpt = a.content.take 200 ++ str "...")
    ∧ (∀ a ∈ store, articleMatches (pyLower q) a = true →
        hitOf a ∈ search_articles q store)
    ∧ (∀ hit ∈ search_articles q store,
        ∃ a ∈ store, articleMatches (pyLower q) a = true ∧ hit = hitOf a)
    ∧ search_articles (str "льгота") [tagOnlyArticle] = [hitOf tagOnlyArticle] := by
  have hchar : search_articles q store
      = (store.filter (articleMatches (pyLower q))).map hitOf := by
    unfold search_articles
    simpa using foldl_if_append (articleMatches (pyLower q)) hitOf store []
  refine ⟨hchar, fun a => rfl, ?_, ?_, by decide⟩
  · intro a ha hm
    rw [hchar]
    exact List.mem_map_of_mem hitOf (List.mem_filter.mpr ⟨ha, hm⟩)
  · intro hit hhit
    rw [hchar] at hhit
    rcases List.mem_map.mp hhit with ⟨a, haf, heq⟩
    rcases List.mem_filter.mp haf with ⟨ha, hm⟩
    exact ⟨a, ha, hm, heq.symm⟩

/-- Witness for C4: the tag-only article is returned for the query
"льгота". -/
theorem C4_search_witness :
    hitOf tagOnlyArticle ∈ search_articles (str "льгота") [tagOnlyArticle] :=
  (C4_search (str "льгота") [tagOnlyArticle]).2.2.1 tagOnlyArticle (by simp) (by decide)

/- ----- helper lemmas: discovery de-duplication ----- -/

theorem dedupGo_mem (l : List SearchResult) :
    ∀ (seen : List Str) (c : SearchResult), c ∈ dedupGo seen l →
      c.url ∉ seen ∧ l.find? (fun r => r.url == c.url) = some c := by
  induction l with
  | nil => intro seen c hc; simp [dedupGo] at hc
  | cons r rest ih =>
      intro seen c hc
      unfold dedupGo at hc
      by_cases hmem : r.url ∈ seen
      · rw [if_pos hmem] at hc
        obtain ⟨hns, hfind⟩ := ih seen c hc
        have hne : (r.url == c.url) = false := by
          apply beq_false_of_ne
          intro he
          exact hns (he ▸ hmem)
        exact ⟨hns, by rw [List.find?_cons_of_neg _ (by simp [hne]), hfind]⟩
      · rw [if_neg hmem] at hc
        rcases List.mem_cons.mp hc with rfl | hc'
        · exact ⟨hmem, List.find?_cons_of_pos _ (beq_self_eq_true _)⟩
        · obtain ⟨hns, hfind⟩ := ih (r.url :: seen) c hc'
          have hcr : c.url ≠ r.url := fun he => hns (by simp [he])
          have hne : (r.url == c.url) = false := beq_false_of_ne fun he => hcr he.symm
          refine ⟨fun hs => hns (List.mem_cons_of_mem _ hs), ?_⟩
          rw [List.find?_cons_of_neg _ (by simp [hne]), hfind]

theorem dedupGo_nodup (l : List SearchResult) :
    ∀ seen : List Str, ((dedupGo seen l).map SearchResult.url).Nodup := by
  induction l with
  | nil => intro seen; simp [dedupGo]
  | cons r rest ih =>
      intro seen
      unfold dedupGo
      by_cases hmem : r.url ∈ seen
      · simpa [hmem] using ih seen
      · rw [if_neg hmem]
        simp only [List.map_cons, List.nodup_cons]
        refine ⟨?_, ih _⟩
        intro hurl
        rcases List.mem_map.mp hurl with ⟨c, hc, hcu⟩
        have hns := (dedupGo_mem rest (r.url :: seen) c hc).1
        exact hns (hcu ▸ List.mem_cons_self _ _)

theorem dedupGo_covers (l : List SearchResult) :
    ∀ (seen : List Str) (r : SearchResult), r ∈ l → r.url ∉ seen →
      ∃ c ∈ dedupGo seen l, c.url = r.url := by
  induction l with
  | nil => intro seen r hr; exact absurd hr (List.not_mem_nil r)
  | cons a rest ih =>
      intro seen r hr hns
      unfold dedupGo
      by_cases hmem : a.url ∈ seen
      · rw [if_pos hmem]
        rcases List.mem_cons.mp hr with rfl | hr'
        · exact absurd hmem hns
        · exact ih seen r hr' hns
      · rw [if_neg hmem]
        rcases List.mem_cons.mp hr with rfl | hr'
        · exact ⟨r, List.mem_cons_self _ _, rfl⟩
        · by_cases he : r.url = a.url
          · exact ⟨a, List.mem_cons_self _ _, he.symm⟩
          · obtain ⟨c, hc, hcu⟩ := ih (a.url :: seen) r hr' (by simp [he, hns])
            exact ⟨c, List.mem_cons_of_mem _ hc, hcu⟩

/- ----- C5 ----- -/

/-- C5 counterexample: the direct-search strategy
(`extract_search_results`) and the fallback-scan strategy
(`alternative_search`) perform no de-duplication — a result page whose
first matching selector yields two elements with the same `/content/`
address produces two candidates with that same address, and two relevant
page links with the same address likewise both survive the fallback scan,
so the claim "every strategy's returned sequence contains no two
candidates with the same address" is false on the code. -/
theorem C5_counterexample :
    extract_search_results
        [[⟨str "T1", some (str "/content/a")⟩, ⟨str "T2", some (str "/content/a")⟩]]
      = [⟨str "T1", str "/content/a"⟩, ⟨str "T2", str "/content/a"⟩]
    ∧ ¬ (List.map SearchResult.url (extract_search_results
        [[⟨str "T1", some (str "/content/a")⟩,
          ⟨str "T2", some (str "/content/a")⟩]])).Nodup
    ∧ alternative_search (str "q")
        [⟨str "q1", some (str "/content/a")⟩, ⟨str "q2", some (str "/content/a")⟩]
      = [⟨str "q1", str "/content/a"⟩, ⟨str "q2", str "/content/a"⟩]
    ∧ ¬ (List.map SearchResult.url (alternative_search (str "q")
        [⟨str "q1", some (str "/content/a")⟩,
         ⟨str "q2", some (str "/content/a")⟩])).Nodup := by
  exact ⟨by decide, by decide, by decide, by decide⟩

/-- C5 amended: the synonym-expansion and related-topic strategies
de-duplicate by address — their returned sequences contain no two
candidates with the same address, every returned candidate is the first
raw result carrying its address (first-seen title wins), and every raw
address is represented — while the direct-search and fallback-scan
strategies emit their raw per-selector results without de-duplication. -/
theorem C5_dedup_strategies (searchFn : Str → List SearchResult) (query : Str) :
    ((expanded_search searchFn query).map SearchResult.url).Nodup
    ∧ (∀ c ∈ expanded_search searchFn query,
        (expandedSearchRaw searchFn query).find? (fun r => r.url == c.url) = some c)
    ∧ (∀ r ∈ expandedSearchRaw searchFn query,
        ∃ c ∈ expanded_search searchFn query, c.url = r.url)
    ∧ ((related_topics_search searchFn query).map SearchResult.url).Nodup
    ∧ (∀ c ∈ related_topics_search searchFn query,
        (relatedSearchRaw searchFn query).find? (fun r => r.url == c.url) = some c)
    ∧ (∀ r ∈ relatedSearchRaw searchFn query,
        ∃ c ∈ related_topics_search searchFn query, c.url = r.url) := by
  unfold expanded_search related_topics_search dedupByUrl
  exact ⟨dedupGo_nodup _ [],
    fun c hc => (dedupGo_mem _ [] c hc).2,
    fun r hr => dedupGo_covers _ [] r hr (List.not_mem_nil _),
    dedupGo_nodup _ [],
    fun c hc => (dedupGo_mem _ [] c hc).2,
    fun r hr => dedupGo_covers _ [] r hr (List.not_mem_nil _)⟩

/-- Witness for C5 amended: two synthetic raw results with the same
address and different titles; the retained candidate is the first-seen
one. -/
theorem C5_dedup_strategies_witness :
    (expandedSearchRaw
        (fun _ => [⟨str "A", str "/content/u"⟩, ⟨str "B", str "/content/u"⟩])
        (str "q")).find?
        (fun r => r.url == SearchResult.url ⟨str "A", str "/content/u"⟩)
      = some ⟨str "A", str "/content/u"⟩ :=
  (C5_dedup_strategies
      (fun _ => [⟨str "A", str "/content/u"⟩, ⟨str "B", str "/content/u"⟩])
      (str "q")).2.1 ⟨str "A", str "/content/u"⟩ (by decide)

/- ----- C6 ----- -/

/-- C6: an error raised inside one item's processing (search, page parse
or save) is caught at the per-item boundary: it increments only the
`failed` count of that item and the loop continues with the remaining
titles from exactly that state. -/
theorem C6_item_error_contained (o : Oracles) (st : BatchState) (t : Str)
    (rest : List Str) (e : PyExc) (h : processTitle o t = .error e) :
    batchLoop o (t :: rest) st = batchLoop o rest { st with failed := st.failed + 1 } := by
  unfold batchLoop
  rw [List.foldl_cons]
  have hstep : stepTitle o st t = { st with failed := st.failed + 1 } := by
    unfold stepTitle
    rw [h]
  rw [hstep]

/-- Witness for C6: a search oracle that raises; the first item only
increments `failed` and the second item is still processed. -/
theorem C6_item_error_contained_witness :
    batchLoop oracleRaise [str "t", str "u"] initState
      = batchLoop oracleRaise [str "u"] { initState with failed := initState.failed + 1 } :=
  C6_item_error_contained oracleRaise initState (str "t") [str "u"] (.exc (str "boom")) rfl

/- ----- C7 ----- -/

/-- C7 (evaluation of the code at the failing input): when `smart_login`
fails, `parse_articles_batch` never consults the discovery, extraction or
persistence collaborators (the result is the same for every oracle), but
instead of returning the all-zero `results` dict it raises
`ZeroDivisionError`, because `log_results` in the `finally` block computes
`success / (success + failed)` with both counters zero. -/
theorem C7_auth_fail_raises (search : Str → Except PyExc (List SearchResult))
    (parsePage : Str → Except PyExc (Option Article))
    (save : Article → Except PyExc Str)
    (titles : List Str) (mx : Option Nat) :
    parse_articles_batch ⟨false, search, parsePage, save⟩ titles mx
        = .error .zeroDivision
    ∧ initState = ⟨0, 0, 0, []⟩ := by
  exact ⟨rfl, rfl⟩

/- ----- helper lemmas: batch counters ----- -/

theorem stepTitle_counts (o : Oracles) (st : BatchState) (t : Str) :
    (stepTitle o st t).success + (stepTitle o st t).failed = st.success + st.failed + 1
    ∧ (stepTitle o st t).skipped = st.skipped := by
  unfold stepTitle
  cases hp : processTitle o t with
  | error e => exact ⟨by simp; omega, rfl⟩
  | ok r =>
      cases r with
      | failedItem => exact ⟨by simp; omega, rfl⟩
      | savedItem i => exact ⟨by simp; omega, rfl⟩

theorem batchLoop_counts (o : Oracles) :
    ∀ (l : List Str) (st : BatchState),
      (batchLoop o l st).success + (batchLoop o l st).failed
          = st.success + st.failed + l.length
      ∧ (batchLoop o l st).skipped = st.skipped := by
  intro l
  induction l with
  | nil => intro st; simp [batchLoop]
  | cons t rest ih =>
      intro st
      have hcons : batchLoop o (t :: rest) st = batchLoop o rest (stepTitle o st t) := by
        unfold batchLoop
        rw [List.foldl_cons]
      obtain ⟨h1, h2⟩ := ih (stepTitle o st t)
      obtain ⟨g1, g2⟩ := stepTitle_counts o st t
      constructor
      · rw [hcons, h1, g1, List.length_cons]
        omega
      · rw [hcons, h2, g2]

/- ----- C10 ----- -/

/-- C10 counterexample: with a limit of `0` supplied, the claim demands
that the processed list be the input truncated to `0` titles, but the code
(`if max_articles:` treating `0` as false) processes the whole list: one
title is processed and counted (`failed = 1`), while the truncated list
has length `0`. -/
theorem C10_counterexample :
    parse_articles_batch oracleNoResults [str "a"] (some 0) = .ok ⟨0, 1, 0, []⟩
    ∧ (List.take 0 [str "a"]).length = 0
    ∧ ((0 : Nat) + 1 ≠ (List.take 0 [str "a"]).length) := by
  exact ⟨rfl, rfl, by decide⟩

/-- C10 amended: for every batch run that authenticates successfully,
each processed title increments exactly one of `success`/`failed`, so
their sum equals the number of processed titles and `skipped` stays `0` —
where the processed titles are the input truncated to the limit only when
a non-zero limit is given (`None` and `0` both mean "no limit") — and
whenever at least one title is processed the run returns this `results`
value (a run that processed nothing instead raises in the final
success-rate log). -/
theorem C10_counts (search : Str → Except PyExc (List SearchResult))
    (parsePage : Str → Except PyExc (Option Article))
    (save : Article → Except PyExc Str) (titles : List Str) (mx : Option Nat) :
    (batchLoop ⟨true, search, parsePage, save⟩ (articlesToParse titles mx) initState).success
        + (batchLoop ⟨true, search, parsePage, save⟩ (articlesToParse titles mx) initState).failed
      = (articlesToParse titles mx).length
    ∧ (batchLoop ⟨true, search, parsePage, save⟩ (articlesToParse titles mx) initState).skipped
      = 0
    ∧ articlesToParse titles (some 0) = titles
    ∧ ((articlesToParse titles mx).length ≠ 0 →
        parse_articles_batch ⟨true, search, parsePage, save⟩ titles mx
          = .ok (batchLoop ⟨true, search, parsePage, save⟩ (articlesToParse titles mx)
              initState)) := by
  obtain ⟨h1, h2⟩ :=
    batchLoop_counts ⟨true, search, parsePage, save⟩ (articlesToParse titles mx) initState
  refine ⟨by simpa [initState] using h1, by simpa [initState] using h2,
    by simp [articlesToParse], ?_⟩
  intro hne
  unfold parse_articles_batch
  simp only [Bool.not_true, Bool.false_eq_true, if_false]
  unfold logResultsCheck
  rw [if_neg]
  rw [h1]
  simpa [initState] using hne

/-- Witness for C10 amended: a one-title run with no limit returns the
loop's `results` value. -/
theorem C10_counts_witness :
    parse_articles_batch oracleNoResults [str "a"] none
      = .ok (batchLoop oracleNoResults (articlesToParse [str "a"] none) initState) :=
  (C10_counts (fun _ => .ok []) (fun _ => .ok none) (fun _ => .ok [])
    [str "a"] none).2.2.2 (by decide)

/- ----- helper lemmas: save_article ----- -/

theorem writeFileAt_filter (path : Str) (d : ArticleData) (files : List (Str × ArticleData)) :
    (writeFileAt path d files).filter (fun kv => kv.1 = path) = [(path, d)] := by
  unfold writeFileAt
  rw [List.filter_append]
  have h1 : (files.filter fun kv => kv.1 ≠ path).filter (fun kv => kv.1 = path) = [] := by
    rw [List.filter_filter]
    apply List.filter_eq_nil_iff.mpr
    intro a _
    simp only [Bool.and_eq_true, decide_eq_true_eq]
    rintro ⟨hp, hn⟩
    exact hn hp
  have h2 : List.filter (fun kv => decide (kv.1 = path)) [(path, d)] = [(path, d)] := by
    simp [List.filter]
  simp only [h1, List.nil_append]
  exact h2

theorem update_articles_index_files (f : Faults) (d : ArticleData) (st : Store) :
    (update_articles_index f d st).files = st.files := by
  unfold update_articles_index
  by_cases h1 : f.indexRead
  · simp [h1]
  · by_cases h2 : f.indexWrite <;> simp [h1, h2]

theorem update_articles_index_fault (f : Faults) (d : ArticleData) (st : Store)
    (h : (f.indexRead || f.indexWrite) = true) :
    (update_articles_index f d st).index = st.index := by
  unfold update_articles_index
  rcases Bool.or_eq_true_iff.mp h with h1 | h2
  · simp [h1]
  · by_cases h1 : f.indexRead <;> simp [h1, h2]

/- ----- C9 ----- -/

/-- C9: `save_article` is total (its `try/except` converts every failure
into a return value): it returns the path of the written per-article
record on success and `""` when the record write fails (leaving the store
untouched); after a successful record write the record is present at that
path, and a failure confined to the index update (read or write) leaves
the index unchanged while the path is still returned — the record stays
retrievable even though the index was not updated. -/
theorem C9_save_error_handling (h : Str → Str) (f : Faults) (dataDir now : Str)
    (a : Article) (st : Store) :
    (save_article h f dataDir now a st).1
        = (if f.recordWrite then str ""
           else joinPath dataDir (generate_article_id h a ++ str ".json"))
    ∧ (f.recordWrite = true → (save_article h f dataDir now a st).2 = st)
    ∧ (f.recordWrite = false →
        ((save_article h f dataDir now a st).2).files.filter
            (fun kv => kv.1 = joinPath dataDir (generate_article_id h a ++ str ".json"))
          = [(joinPath dataDir (generate_article_id h a ++ str ".json"),
              articleDataOf (generate_article_id h a) now a)])
    ∧ ((f.indexRead || f.indexWrite) = true →
        ((save_article h f dataDir now a st).2).index = st.index) := by
  by_cases hw : f.recordWrite
  · refine ⟨by simp [save_article, hw], fun _ => by simp [save_article, hw], ?_, ?_⟩
    · intro hfalse
      rw [hw] at hfalse
      exact absurd hfalse (by simp)
    · intro _
      simp [save_article, hw]
  · have hfiles :
        (save_article h f dataDir now a st).2.files
          = writeFileAt (joinPath dataDir (generate_article_id h a ++ str ".json"))
              (articleDataOf (generate_article_id h a) now a) st.files := by
      simp only [save_article, hw, if_false, Bool.false_eq_true]
      rw [update_articles_index_files]
    refine ⟨by simp [save_article, hw], fun htrue => absurd htrue (by simp [hw]), ?_, ?_⟩
    · intro _
      rw [hfiles]
      exact writeFileAt_filter _ _ _
    · intro hidx
      simp only [save_article, hw, if_false, Bool.false_eq_true]
      rw [update_articles_index_fault _ _ _ hidx]

/-- Witness for C9: a failing index write; the path is still returned and
the index is unchanged. -/
theorem C9_save_error_handling_witness :
    ((save_article (fun s => s) ⟨false, false, true⟩ (str "data") (str "now")
        ⟨str "T", str "u", str "b", [], [], [], 1, str "ts"⟩ ⟨[], []⟩).2).index = []
    ∧ (save_article (fun s => s) ⟨false, false, true⟩ (str "data") (str "now")
        ⟨str "T", str "u", str "b", [], [], [], 1, str "ts"⟩ ⟨[], []⟩).1
      = joinPath (str "data")
          (generate_article_id (fun s => s)
            ⟨str "T", str "u", str "b", [], [], [], 1, str "ts"⟩ ++ str ".json") :=
  ⟨(C9_save_error_handling (fun s => s) ⟨false, false, true⟩ (str "data") (str "now")
      ⟨str "T", str "u", str "b", [], [], [], 1, str "ts"⟩ ⟨[], []⟩).2.2.2 rfl,
   by
    have := (C9_save_error_handling (fun s => s) ⟨false, false, true⟩ (str "data") (str "now")
      ⟨str "T", str "u", str "b", [], [], [], 1, str "ts"⟩ ⟨[], []⟩).1
    simpa using this⟩

/- ----- C8 ----- -/

/-- C8 counterexample: `clean_content` is not idempotent on its own
outputs.  Cleaning `"a <b> c"` deletes the tag `<b>`, merging the two
spaces around it into `"a  c"` — a cleaning-pass output — and cleaning
that again collapses the doubled space to `"a c"`. -/
theorem C8_counterexample :
    clean_content (str "a <b> c") = str "a  c"
    ∧ clean_content (str "a  c") ≠ str "a  c" := by
  exact ⟨by decide, by decide⟩

/- ----- helper lemmas: whitespace-normal form ----- -/

theorem onlySpaceNL_tail {c : Char} {s : Str} (h : onlySpaceNL (c :: s) = true) :
    onlySpaceNL s = true := by
  simp only [onlySpaceNL, List.all_cons, Bool.and_eq_true] at h
  exact h.2

theorem onlySpaceNL_head {c : Char} {s : Str} (h : onlySpaceNL (c :: s) = true)
    (hsp : isPySpace c = true) : c = ' ' ∨ c = '\n' := by
  simp only [onlySpaceNL, List.all_cons, Bool.and_eq_true] at h
  rcases Bool.or_eq_true_iff.mp h.1 with h' | h'
  · rw [hsp] at h'
    exact absurd h' (by simp)
  · rcases Bool.or_eq_true_iff.mp h' with h'' | h''
    · exact Or.inl (by simpa using h'')
    · exact Or.inr (by simpa using h'')

theorem wsPairsOK_tail {c : Char} {s : Str} (h : wsPairsOK (c :: s) = true) :
    wsPairsOK s = true := by
  cases s with
  | nil => rfl
  | cons d rest =>
      simp only [wsPairsOK, Bool.and_eq_true] at h
      exact h.2

theorem wsPairsOK_head {a b : Char} {rest : Str} (h : wsPairsOK (a :: b :: rest) = true)
    (ha : isPySpace a = true) (hb : isPySpace b = true) : a = '\n' ∧ b = '\n' := by
  simp only [wsPairsOK, Bool.and_eq_true] at h
  have h1 := h.1
  rw [ha, hb] at h1
  simpa using h1

theorem wsOK3_tail {c : Char} {s : Str} (h : wsOK3 (c :: s) = true) : wsOK3 s = true := by
  cases s with
  | nil => rfl
  | cons d rest =>
      cases rest with
      | nil => rfl
      | cons e rest' =>
          simp only [wsOK3, Bool.and_eq_true] at h
          exact h.2

theorem wsOK3_head {a b c : Char} {rest : Str} (h : wsOK3 (a :: b :: c :: rest) = true) :
    ¬(a = '\n' ∧ b = '\n' ∧ c = '\n') := by
  rintro ⟨rfl, rfl, rfl⟩
  simp only [wsOK3, Bool.and_eq_true] at h
  have := h.1
  simp at this

theorem no_lt_of_allowed {s : Str} (h : s.all allowedChar = true) : '<' ∉ s := by
  intro hm
  have := List.all_eq_true.mp h '<' hm
  exact absurd this (by decide)

theorem stripBlockAux_no_lt {tag close : Str} {tag' : Str} (htag : tag = '<' :: tag') :
    ∀ (n : Nat) (s : Str), '<' ∉ s → stripBlockAux tag close n s = s := by
  intro n
  induction n with
  | zero =>
      intro s _
      cases s with
      | nil => rfl
      | cons c rest => rfl
  | succ n ih =>
      intro s hs
      cases s with
      | nil => rfl
      | cons c rest =>
          have hc : ('<' == c) = false := by
            apply beq_false_of_ne
            intro he
            exact hs (he ▸ List.mem_cons_self c rest)
          have hguard : tag.isPrefixOf (c :: rest) = false := by
            rw [htag]
            simp [List.isPrefixOf, hc]
          simp only [stripBlockAux, hguard, Bool.false_and, Bool.false_eq_true, if_false]
          rw [ih rest fun hm => hs (List.mem_cons_of_mem _ hm)]

theorem step4Aux_no_lt :
    ∀ (n : Nat) (s : Str), '<' ∉ s → step4Aux n s = s := by
  intro n
  induction n with
  | zero =>
      intro s _
      cases s with
      | nil => rfl
      | cons c rest => rfl
  | succ n ih =>
      intro s hs
      cases s with
      | nil => rfl
      | cons c rest =>
          have hc : (c == '<') = false := by
            apply beq_false_of_ne
            intro he
            exact hs (he ▸ List.mem_cons_self c rest)
          simp only [step4Aux, hc, Bool.false_eq_true, if_false]
          rw [ih rest fun hm => hs (List.mem_cons_of_mem _ hm)]

theorem step5_allowed {s : Str} (h : s.all allowedChar = true) : step5 s = s := by
  unfold step5
  exact List.filter_eq_self.mpr (List.all_eq_true.mp h)

theorem isPySpace_of_isHT {c : Char} (h : isHT c = true) : isPySpace c = true := by
  rcases Bool.or_eq_true_iff.mp h with h' | h'
  · simp [isPySpace, h']
  · simp [isPySpace, h']

theorem step2Aux_nf :
    ∀ (n : Nat) (s : Str), onlySpaceNL s = true → wsPairsOK s = true →
      step2Aux n s = s := by
  intro n
  induction n with
  | zero =>
      intro s _ _
      cases s with
      | nil => rfl
      | cons c rest => rfl
  | succ n ih =>
      intro s h1 h2
      cases s with
      | nil => rfl
      | cons c rest =>
          by_cases hc : isHT c = true
          · have hsp : isPySpace c = true := isPySpace_of_isHT hc
            have hcs : c = ' ' := by
              rcases onlySpaceNL_head h1 hsp with h | h
              · exact h
              · rw [h] at hc
                exact absurd hc (by decide)
            have hdrop : rest.dropWhile isHT = rest := by
              cases rest with
              | nil => rfl
              | cons d rest' =>
                  have hd : isHT d = false := by
                    cases hht : isHT d
                    · rfl
                    · have hdsp := isPySpace_of_isHT hht
                      have := (wsPairsOK_head h2 hsp hdsp).1
                      rw [hcs] at this
                      exact absurd this (by decide)
                  rw [List.dropWhile_cons_of_neg (by simp [hd])]
            simp only [step2Aux, hc, if_true, hdrop]
            rw [ih rest (onlySpaceNL_tail h1) (wsPairsOK_tail h2), hcs]
          · have hcf : isHT c = false := by simpa using hc
            simp only [step2Aux, hcf, Bool.false_eq_true, if_false]
            rw [ih rest (onlySpaceNL_tail h1) (wsPairsOK_tail h2)]

theorem pyStrip_nf {s : Str} (hh : headOK s = true) (ht : headOK s.reverse = true) :
    pyStrip s = s := by
  unfold pyStrip
  have h1 : s.dropWhile isPySpace = s := by
    cases s with
    | nil => rfl
    | cons c rest =>
        have hc : isPySpace c = false := by simpa [headOK] using hh
        rw [List.dropWhile_cons_of_neg (by simp [hc])]
  rw [h1]
  have h2 : s.reverse.dropWhile isPySpace = s.reverse := by
    cases hr : s.reverse with
    | nil => rfl
    | cons c rest =>
        rw [hr] at ht
        have hc : isPySpace c = false := by simpa [headOK] using ht
        rw [List.dropWhile_cons_of_neg (by simp [hc])]
  rw [h2, List.reverse_reverse]

theorem step1Aux_nil (n : Nat) : step1Aux n [] = [] := by
  cases n with
  | zero => rfl
  | succ n => rfl

theorem step1Aux_nf :
    ∀ (n : Nat) (s : Str), onlySpaceNL s = true → wsPairsOK s = true → wsOK3 s = true →
      step1Aux n s = s := by
  intro n
  induction n with
  | zero =>
      intro s _ _ _
      cases s with
      | nil => rfl
      | cons c rest => rfl
  | succ n ih =>
      intro s h1 h2 h3
      cases s with
      | nil => rfl
      | cons c rest =>
          by_cases hc : c = '\n'
          · subst hc
            cases rest with
            | nil =>
                simp only [step1Aux, beq_self_eq_true, if_true, List.takeWhile_nil,
                  lastNLsplit, step1Aux_nil]
            | cons d rest' =>
                by_cases hd : isPySpace d = true
                · have hdn : d = '\n' :=
                    (wsPairsOK_head h2 (by decide) hd).2
                  subst hdn
                  have htw : rest'.takeWhile isPySpace = [] := by
                    cases rest' with
                    | nil => rfl
                    | cons e rest'' =>
                        have he : isPySpace e = false := by
                          cases hesp : isPySpace e
                          · rfl
                          · have := (wsPairsOK_head (wsPairsOK_tail h2) (by decide) hesp).2
                            exact absurd ⟨rfl, rfl, this⟩ (wsOK3_head h3)
                        rw [List.takeWhile_cons_of_neg (by simp [he])]
                  have hws : (('\n' : Char) :: rest').takeWhile isPySpace = ['\n'] := by
                    rw [List.takeWhile_cons_of_pos (by decide), htw]
                  simp only [step1Aux, beq_self_eq_true, if_true, hws, lastNLsplit,
                    List.length_cons, List.length_nil, List.drop_succ_cons, List.drop_zero,
                    List.nil_append]
                  rw [htw]
                  simp only [lastNLsplit, List.nil_append]
                  rw [ih rest' (onlySpaceNL_tail (onlySpaceNL_tail h1))
                    (wsPairsOK_tail (wsPairsOK_tail h2)) (wsOK3_tail (wsOK3_tail h3))]
                · have hdf : isPySpace d = false := by simpa using hd
                  have htw : (d :: rest').takeWhile isPySpace = [] := by
                    rw [List.takeWhile_cons_of_neg (by simp [hdf])]
                  simp only [step1Aux, beq_self_eq_true, if_true, htw, lastNLsplit]
                  rw [ih (d :: rest') (onlySpaceNL_tail h1) (wsPairsOK_tail h2)
                    (wsOK3_tail h3)]
          · have hcb : (c == '\n') = false := beq_false_of_ne hc
            simp only [step1Aux, hcb, Bool.false_eq_true, if_false]
            rw [ih rest (onlySpaceNL_tail h1) (wsPairsOK_tail h2) (wsOK3_tail h3)]

/-- C8 amended: the cleaning pass is not idempotent on all of its outputs
(deleting tags, script blocks or disallowed characters can merge
surrounding whitespace, which only the next pass collapses); it is
idempotent on cleaned text in whitespace-normal form — only allow-listed
characters, whitespace restricted to space/newline, no two adjacent
whitespace characters other than one blank-line pair, no triple newline,
and no leading or trailing whitespace: re-cleaning such text returns it
unchanged. -/
theorem C8_clean_idempotent_nf (s : Str) (h : wsNormalForm s = true) :
    clean_content s = s := by
  have hparts := h
  simp only [wsNormalForm, Bool.and_eq_true] at hparts
  obtain ⟨⟨⟨⟨⟨hall, honly⟩, hpairs⟩, h3⟩, hhead⟩, hlast⟩ := hparts
  by_cases hs : s.isEmpty = true
  · have hnil : s = [] := by simpa using hs
    subst hnil
    rfl
  · have e1 : step1 s = s := step1Aux_nf s.length s honly hpairs h3
    have e2 : step2 s = s := step2Aux_nf s.length s honly hpairs
    have elt : '<' ∉ s := no_lt_of_allowed hall
    have e3 : stripScript s = s := by
      unfold stripScript
      exact stripBlockAux_no_lt rfl s.length s elt
    have e4 : stripStyle s = s := by
      unfold stripStyle
      exact stripBlockAux_no_lt rfl s.length s elt
    have e5 : step4 s = s := by
      unfold step4
      exact step4Aux_no_lt s.length s elt
    have e6 : step5 s = s := step5_allowed hall
    have e7 : pyStrip s = s := pyStrip_nf hhead hlast
    unfold clean_content
    rw [if_neg hs, e1, e2, e3, e4, e5, e6, e7]

/-- Witness for C8 amended: a concrete cleaned paragraph in
whitespace-normal form is a fixed point of `clean_content`. -/
theorem C8_clean_idempotent_nf_witness :
    wsNormalForm (str "ab c.\n\nd") = true
    ∧ clean_content (str "ab c.\n\nd") = str "ab c.\n\nd" :=
  ⟨by decide, C8_clean_idempotent_nf (str "ab c.\n\nd") (by decide)⟩
